import Mathlib

/-!
Shallow embedding of the single-pass register/stack allocator
(`lib/compiler-singlepass/src/machine.rs`) of the wasmer repository,
together with theorems settling the frozen claims about it.

Mutating Rust methods (`&mut self`) are translated as pure state-passing
functions `Machine → … → Option (Machine × …)`; `none` models the fatal
`unreachable!()` / failed-`assert!` paths (deterministic aborts).
Non-mutating methods (`&self` / associated functions) take the machine
(if at all) and return no machine.  The emitter capability is modelled as
the list of instructions a call sequences, in emission order.
-/

namespace Wasmer

/-- Modelled from the spec: general-purpose register identifiers of the
x86-64 emitter layer (`emitter_x64::GPR`, outside `src/`); the allocator
only needs their identity and total order. -/
inductive GPR
  | RAX | RCX | RDX | RBX | RSP | RBP | RSI | RDI
  | R8 | R9 | R10 | R11 | R12 | R13 | R14 | R15
  deriving DecidableEq, Repr

/-- Modelled from the spec: floating/vector register identifiers
(`emitter_x64::XMM`, outside `src/`). -/
inductive XMM
  | XMM0 | XMM1 | XMM2 | XMM3 | XMM4 | XMM5 | XMM6 | XMM7
  deriving DecidableEq, Repr

/-- Modelled from the spec: the operand `Location` tagged union of the
emitter layer (outside `src/`): a general-purpose register, a float/vector
register, frame-relative memory at a signed byte offset, or an immediate
constant. -/
inductive Location
  | GPR (r : GPR)
  | XMM (r : XMM)
  | Memory (base : GPR) (off : Int)
  | Imm32 (v : Nat)
  | Imm64 (v : Nat)
  deriving DecidableEq, Repr

/-- Modelled from the spec: operand widths of the emitter layer. -/
inductive Size
  | S8 | S16 | S32 | S64
  deriving DecidableEq, Repr

/-- Modelled from the spec: the abstract emitter capability accepts typed
operations (move, add/sub, lea, repeated store, pop, xor); one emitted
operation is one `Instr`, and an emitter run is the list of `Instr`s in
emission order. -/
inductive Instr
  | sub (sz : Size) (src dst : Location)
  | add (sz : Size) (src dst : Location)
  | mov (sz : Size) (src dst : Location)
  | xor (sz : Size) (src dst : Location)
  | lea (sz : Size) (src dst : Location)
  | pop (sz : Size) (dst : Location)
  | repStosq
  deriving DecidableEq, Repr

/-- Modelled from the spec: the requested value kinds
(`wasmer_compiler::wasmparser::Type`, outside `src/`): the six supported
kinds named by the spec's value-kind classification, plus `V128` as a
representative kind outside that set. -/
inductive WpType
  | I32 | I64 | F32 | F64 | V128 | FuncRef | ExternRef
  deriving DecidableEq, Repr

/-- Constant `NATIVE_PAGE_SIZE: usize = 4096`. -/
def NATIVE_PAGE_SIZE : Nat := 4096

/-- The allocator state (`struct Machine`): used general-purpose registers,
used XMM registers, current stack offset (bytes below the frame base),
the save-area boundary offset (set at prologue time), and the
locals-base offset (set at prologue time). -/
structure Machine where
  used_gprs : Finset GPR
  used_xmms : Finset XMM
  stack_offset : Nat
  save_area_offset : Option Nat
  locals_offset : Nat
  deriving DecidableEq

/-- Constructor `Machine::new()`. -/
def Machine.new : Machine :=
  { used_gprs := ∅
    used_xmms := ∅
    stack_offset := 0
    save_area_offset := none
    locals_offset := 0 }

/-- Source `Machine::pick_gpr`: first unused register of the six-register general
GPR pool `[RSI, RDI, R8, R9, R10, R11]`. -/
def Machine.pick_gpr (m : Machine) : Option GPR :=
  [GPR.RSI, GPR.RDI, GPR.R8, GPR.R9, GPR.R10, GPR.R11].find?
    (fun r => decide (r ∉ m.used_gprs))

/-- Source `Machine::pick_xmm`: first unused register of the general XMM pool
`[XMM3, XMM4, XMM5, XMM6, XMM7]`. -/
def Machine.pick_xmm (m : Machine) : Option XMM :=
  [XMM.XMM3, XMM.XMM4, XMM.XMM5, XMM.XMM6, XMM.XMM7].find?
    (fun r => decide (r ∉ m.used_xmms))

/-- One iteration of the `for ty in tys` loop of
`Machine::acquire_locations`: pick a register of the class matching `ty`
(`none` from the `_ => unreachable!` arm for unsupported kinds); on pool
exhaustion extend the stack offset by 8 and use a frame-relative memory
slot; mark an acquired register used.  Returns the new state, this
iteration's contribution to `delta_stack_offset`, and the location. -/
def Machine.acquireOne (m : Machine) (ty : WpType) :
    Option (Machine × Nat × Location) :=
  let pickOpt : Option (Option Location) :=
    match ty with
    | .F32 | .F64 => some ((m.pick_xmm).map Location.XMM)
    | .I32 | .I64 => some ((m.pick_gpr).map Location.GPR)
    | .FuncRef | .ExternRef => some ((m.pick_gpr).map Location.GPR)
    | _ => none
  match pickOpt with
  | none => none
  | some pick =>
    let step : Machine × Nat × Location :=
      match pick with
      | some x => (m, 0, x)
      | none =>
          ({ m with stack_offset := m.stack_offset + 8 }, 8,
            Location.Memory GPR.RBP (-((m.stack_offset + 8 : Nat) : Int)))
    let m1 := step.1
    let loc := step.2.2
    let m2 :=
      match loc with
      | .GPR x => { m1 with used_gprs := insert x m1.used_gprs }
      | .XMM x => { m1 with used_xmms := insert x m1.used_xmms }
      | _ => m1
    some (m2, step.2.1, loc)

/-- The full `for` loop of `Machine::acquire_locations`, accumulating the
total `delta_stack_offset` and the returned locations in request order. -/
def Machine.acquireGo (m : Machine) : List WpType → Option (Machine × Nat × List Location)
  | [] => some (m, 0, [])
  | ty :: tys =>
      match m.acquireOne ty with
      | none => none
      | some (m1, d1, loc) =>
          match m1.acquireGo tys with
          | none => none
          | some (m2, d2, locs) => some (m2, d1 + d2, loc :: locs)

/-- Source `Machine::acquire_locations`: run the allocation loop; if any memory
was newly committed emit a single `sub delta, %rsp`; if `zeroed`, emit one
zeroing move per acquired location. -/
def Machine.acquire_locations (m : Machine) (tys : List WpType) (zeroed : Bool) :
    Option (Machine × List Instr × List Location) :=
  match m.acquireGo tys with
  | none => none
  | some (m1, delta, ret) =>
      let subInstrs := if delta ≠ 0 then
          [Instr.sub Size.S64 (Location.Imm32 delta) (Location.GPR GPR.RSP)]
        else []
      let zeroInstrs := if zeroed then
          ret.map (fun l => Instr.mov Size.S64 (Location.Imm32 0) l)
        else []
      some (m1, subInstrs ++ zeroInstrs, ret)

/-- One iteration of the (reversed) loop of `Machine::release_locations`:
free a register location (fatal if it was not marked used); retire a
frame-relative memory location (fatal unless its negated offset equals the
current stack-offset top), decrementing the stack offset by 8; silently
skip every other location.  Returns the new state and this iteration's
contribution to `delta_stack_offset`. -/
def Machine.releaseOne (m : Machine) (loc : Location) : Option (Machine × Nat) :=
  match loc with
  | .GPR x =>
      if x ∈ m.used_gprs then
        some ({ m with used_gprs := m.used_gprs.erase x }, 0)
      else none
  | .XMM x =>
      if x ∈ m.used_xmms then
        some ({ m with used_xmms := m.used_xmms.erase x }, 0)
      else none
  | .Memory base x =>
      if base = GPR.RBP then
        if 0 ≤ x then none
        else if (-x).toNat = m.stack_offset then
          some ({ m with stack_offset := m.stack_offset - 8 }, 8)
        else none
      else some (m, 0)
  | _ => some (m, 0)

/-- The `for loc in locs.iter().rev()` loop of `Machine::release_locations`:
elements later in the list are processed first. -/
def Machine.releaseGo (m : Machine) : List Location → Option (Machine × Nat)
  | [] => some (m, 0)
  | loc :: locs =>
      match m.releaseGo locs with
      | none => none
      | some (m1, d1) =>
          match m1.releaseOne loc with
          | none => none
          | some (m2, d2) => some (m2, d1 + d2)

/-- Source `Machine::release_locations`: run the release loop in reverse order;
if any memory was freed emit a single `add delta, %rsp`. -/
def Machine.release_locations (m : Machine) (locs : List Location) :
    Option (Machine × List Instr) :=
  match m.releaseGo locs with
  | none => none
  | some (m1, delta) =>
      some (m1, if delta ≠ 0 then
          [Instr.add Size.S64 (Location.Imm32 delta) (Location.GPR GPR.RSP)]
        else [])

/-- One iteration of the loop of `Machine::release_locations_only_stack`:
like `releaseOne` but the `if let Location::Memory(GPR::RBP, x)` pattern
skips register locations as well. -/
def Machine.releaseStackOne (m : Machine) (loc : Location) : Option (Machine × Nat) :=
  match loc with
  | .Memory base x =>
      if base = GPR.RBP then
        if 0 ≤ x then none
        else if (-x).toNat = m.stack_offset then
          some ({ m with stack_offset := m.stack_offset - 8 }, 8)
        else none
      else some (m, 0)
  | _ => some (m, 0)

/-- The reversed loop of `Machine::release_locations_only_stack`. -/
def Machine.releaseStackGo (m : Machine) : List Location → Option (Machine × Nat)
  | [] => some (m, 0)
  | loc :: locs =>
      match m.releaseStackGo locs with
      | none => none
      | some (m1, d1) =>
          match m1.releaseStackOne loc with
          | none => none
          | some (m2, d2) => some (m2, d1 + d2)

/-- Source `Machine::release_locations_only_stack`. -/
def Machine.release_locations_only_stack (m : Machine) (locs : List Location) :
    Option (Machine × List Instr) :=
  match m.releaseStackGo locs with
  | none => none
  | some (m1, delta) =>
      some (m1, if delta ≠ 0 then
          [Instr.add Size.S64 (Location.Imm32 delta) (Location.GPR GPR.RSP)]
        else [])

/-- One iteration of the loop of `Machine::release_locations_keep_state`:
the same frame-relative-memory bookkeeping as `releaseOne`, but performed
on a local copy of the stack offset instead of the machine state; every
non-`Memory(RBP, _)` location is skipped. -/
def Machine.keepOne (so : Nat) (loc : Location) : Option (Nat × Nat) :=
  match loc with
  | .Memory base x =>
      if base = GPR.RBP then
        if 0 ≤ x then none
        else if (-x).toNat = so then some (so - 8, 8)
        else none
      else some (so, 0)
  | _ => some (so, 0)

/-- The reversed loop of `Machine::release_locations_keep_state`, carrying
the local (non-state) copy of the stack offset; elements later in the list
are processed first.  Returns the final local offset and the accumulated
`delta_stack_offset`. -/
def Machine.keepGo (stack_offset : Nat) : List Location → Option (Nat × Nat)
  | [] => some (stack_offset, 0)
  | loc :: locs =>
      match Machine.keepGo stack_offset locs with
      | none => none
      | some (so1, d1) =>
          match Machine.keepOne so1 loc with
          | none => none
          | some (so2, d2) => some (so2, d1 + d2)

/-- Source `Machine::release_locations_keep_state`: takes the machine immutably
(`&self` in the source), so by construction it cannot mutate the
used-register sets or the stack offset; it only computes and emits the
stack-pointer-restore instruction. -/
def Machine.release_locations_keep_state (m : Machine) (locs : List Location) :
    Option (List Instr) :=
  match Machine.keepGo m.stack_offset locs with
  | none => none
  | some (_, delta) =>
      some (if delta ≠ 0 then
          [Instr.add Size.S64 (Location.Imm32 delta) (Location.GPR GPR.RSP)]
        else [])

/-- Modelled from the spec: the calling-convention selector
(`wasmer_compiler::CallingConvention`, outside `src/`): the default
convention and the alternate (shadow-space) convention the source matches
as `WindowsFastcall`. -/
inductive CallingConvention
  | SystemV
  | WindowsFastcall
  deriving DecidableEq, Repr

/-- Source `Machine::get_param_location`: pure lookup of the physical entry
location of logical parameter `idx` under each calling convention. -/
def Machine.get_param_location (idx : Nat) (cc : CallingConvention) : Location :=
  match cc with
  | .WindowsFastcall =>
      match idx with
      | 0 => Location.GPR GPR.RCX
      | 1 => Location.GPR GPR.RDX
      | 2 => Location.GPR GPR.R8
      | 3 => Location.GPR GPR.R9
      | _ => Location.Memory GPR.RBP ((16 + 32 + (idx - 4) * 8 : Nat) : Int)
  | .SystemV =>
      match idx with
      | 0 => Location.GPR GPR.RDI
      | 1 => Location.GPR GPR.RSI
      | 2 => Location.GPR GPR.RDX
      | 3 => Location.GPR GPR.RCX
      | 4 => Location.GPR GPR.R8
      | 5 => Location.GPR GPR.R9
      | _ => Location.Memory GPR.RBP ((16 + (idx - 6) * 8 : Nat) : Int)

/-- Source `Machine::get_local_location`: frame-relative slot of local `idx`,
immediately below the save area (`-((idx + 1) * 8 + locals_offset)`). -/
def Machine.get_local_location (m : Machine) (idx : Nat) : Location :=
  Location.Memory GPR.RBP (-(((idx + 1) * 8 + m.locals_offset : Nat) : Int))

/-- The guard-page-probe index stream of `Machine::init_locals`:
`(n_params..n).step_by(NATIVE_PAGE_SIZE / 8).skip(1)`, i.e. the stride
elements `n_params + k * (NATIVE_PAGE_SIZE / 8)` below `n` with the first
(`k = 0`) element dropped. -/
def probeIndices (n_params n : Nat) : List Nat :=
  (((List.range ((n - n_params + (NATIVE_PAGE_SIZE / 8) - 1) / (NATIVE_PAGE_SIZE / 8))).map
    (fun k => n_params + (NATIVE_PAGE_SIZE / 8) * k)).drop 1)

/-- One iteration of the parameter-copy loop of `Machine::init_locals`:
move parameter `i + 1`'s entry location into local slot `i`, routing
memory-to-memory moves through `RAX`; the source's `unreachable!` arms
(immediate entry or local locations) are `none`. -/
def Machine.paramMove (m : Machine) (cc : CallingConvention) (i : Nat) :
    Option (List Instr) :=
  let loc := Machine.get_param_location (i + 1) cc
  let local_loc := m.get_local_location i
  match loc with
  | .GPR _ => some [Instr.mov Size.S64 loc local_loc]
  | .Memory _ _ =>
      match local_loc with
      | .GPR _ => some [Instr.mov Size.S64 loc local_loc]
      | .Memory _ _ =>
          some [Instr.mov Size.S64 loc (Location.GPR GPR.RAX),
                Instr.mov Size.S64 (Location.GPR GPR.RAX) local_loc]
      | _ => none
  | _ => none

/-- The `for i in 0..n_params` parameter-copy loop of `Machine::init_locals`. -/
def Machine.paramMoves (m : Machine) (cc : CallingConvention) (n_params : Nat) :
    Option (List Instr) :=
  match (List.range n_params).mapM (m.paramMove cc) with
  | none => none
  | some parts => some parts.flatten

/-- The zero-initialization statistics loop of `Machine::init_locals`:
counts the memory-backed locals in `n_params..n` and tracks the least
(`cmp::min`) such location; all compared locations are `Memory(RBP, _)`,
so the derived ordering reduces to comparing the offsets, starting from
`i32::MAX`.  The source's `unreachable!` arm for a non-memory local is
`none`. -/
def Machine.zeroInitStats (m : Machine) (n_params n : Nat) : Option (Nat × Int) :=
  ((List.range n).drop n_params).foldlM
    (fun (acc : Nat × Int) i =>
      match m.get_local_location i with
      | .Memory _ x => some (acc.1 + 1, min acc.2 x)
      | _ => none)
    (0, (2147483647 : Int))

/-- Source `Machine::init_locals`: compute the save-area size, record the
locals-base offset, reserve the static area with one `sub`, store the
callee-saved registers (R15, plus RDI/RSI under the Windows convention)
while updating the stack offset, record the save-area offset, copy the
first `n_params` parameters into their local slots, reload the context
pointer into R15, emit the guard-page probe stores, emit the bulk
zero-initialization block when any non-parameter locals exist, and add
the locals' bytes to the stack-offset bookkeeping. -/
def Machine.init_locals (m : Machine) (n n_params : Nat) (cc : CallingConvention) :
    Option (Machine × List Instr) :=
  let static0 : Nat := 8 + (if cc = CallingConvention.WindowsFastcall then 8 * 2 else 0)
  let m := { m with locals_offset := static0 }
  let static_area_size := static0 + n * 8
  let iSub := Instr.sub Size.S64 (Location.Imm32 static_area_size) (Location.GPR GPR.RSP)
  let m := { m with stack_offset := m.stack_offset + 8 }
  let iSaveR15 := Instr.mov Size.S64 (Location.GPR GPR.R15)
      (Location.Memory GPR.RBP (-((m.stack_offset : Nat) : Int)))
  let winSaves : Machine × List Instr :=
    if cc = CallingConvention.WindowsFastcall then
      let m1 := { m with stack_offset := m.stack_offset + 8 }
      let iRDI := Instr.mov Size.S64 (Location.GPR GPR.RDI)
          (Location.Memory GPR.RBP (-((m1.stack_offset : Nat) : Int)))
      let m2 := { m1 with stack_offset := m1.stack_offset + 8 }
      let iRSI := Instr.mov Size.S64 (Location.GPR GPR.RSI)
          (Location.Memory GPR.RBP (-((m2.stack_offset : Nat) : Int)))
      (m2, [iRDI, iRSI])
    else (m, [])
  let m := winSaves.1
  let m := { m with save_area_offset := some m.stack_offset }
  match m.paramMoves cc n_params with
  | none => none
  | some paramInstrs =>
    let iVmctx := Instr.mov Size.S64 (Machine.get_param_location 0 cc) (Location.GPR GPR.R15)
    let probes := (probeIndices n_params n).map
        (fun i => Instr.mov Size.S64 (Location.Imm32 0) (m.get_local_location i))
    match m.zeroInitStats n_params n with
    | none => none
    | some (cnt, lastOff) =>
      let zInstrs := if 0 < cnt then
          [Instr.mov Size.S64 (Location.Imm64 cnt) (Location.GPR GPR.RCX),
           Instr.xor Size.S64 (Location.GPR GPR.RAX) (Location.GPR GPR.RAX),
           Instr.lea Size.S64 (Location.Memory GPR.RBP lastOff) (Location.GPR GPR.RDI),
           Instr.repStosq]
        else []
      let m := { m with stack_offset := m.stack_offset + (static_area_size - m.locals_offset) }
      some (m, [iSub, iSaveR15] ++ winSaves.2 ++ paramInstrs ++ [iVmctx] ++ probes ++ zInstrs)

/-- Source `Machine::finalize_locals`: unwind the stack pointer to the save-area
boundary (fatal `unwrap` if the save-area offset was never recorded), then
pop the extra callee-saved registers (Windows convention only) and the
context register.  The source method writes no field of `self`, so the
machine is returned unchanged. -/
def Machine.finalize_locals (m : Machine) (cc : CallingConvention) :
    Option (Machine × List Instr) :=
  match m.save_area_offset with
  | none => none
  | some sa =>
      let iLea := Instr.lea Size.S64 (Location.Memory GPR.RBP (-((sa : Nat) : Int)))
          (Location.GPR GPR.RSP)
      let pops :=
        (if cc = CallingConvention.WindowsFastcall then
            [Instr.pop Size.S64 (Location.GPR GPR.RSI),
             Instr.pop Size.S64 (Location.GPR GPR.RDI)]
          else []) ++ [Instr.pop Size.S64 (Location.GPR GPR.R15)]
      some (m, iLea :: pops)

/-- A strictly nested (stack-like) sequence of `acquire_locations` /
`release_locations` calls: `node tys zeroed inner rest` acquires locations
for `tys`, runs the nested sequence `inner`, releases exactly the location
list returned by the matching acquire, then runs `rest`. -/
inductive Trace
  | nil
  | node (tys : List WpType) (zeroed : Bool) (inner rest : Trace)

/-- Run a nested acquire/release trace against the allocator, discarding
the emitted instructions; `none` if any call takes a fatal path. -/
def runTrace (m : Machine) : Trace → Option Machine
  | .nil => some m
  | .node tys zeroed inner rest =>
      match m.acquire_locations tys zeroed with
      | none => none
      | some (m1, _, locs) =>
          match runTrace m1 inner with
          | none => none
          | some m2 =>
              match m2.release_locations locs with
              | none => none
              | some (m3, _) => runTrace m3 rest

/-- The locations `Machine::release_locations` (and
`Machine::release_locations_only_stack`) silently skip: immediates and
memory locations not based on the frame-base register `RBP`. -/
def skippedByRelease : Location → Bool
  | .Imm32 _ => true
  | .Imm64 _ => true
  | .Memory base _ => decide (base ≠ GPR.RBP)
  | _ => false

/-- A concrete nested trace: acquire seven integer locations (six registers
plus one stack slot), acquire and release a float location inside, then
release the seven. -/
def roundTripTrace : Trace :=
  Trace.node (List.replicate 7 WpType.I32) false
    (Trace.node [WpType.F64] false Trace.nil Trace.nil) Trace.nil

/-! ### Helper lemmas -/

theorem Machine.pick_gpr_not_mem {m : Machine} {r : GPR} (h : m.pick_gpr = some r) :
    r ∉ m.used_gprs := by
  unfold Machine.pick_gpr at h
  simpa using List.find?_some h

theorem Machine.pick_xmm_not_mem {m : Machine} {r : XMM} (h : m.pick_xmm = some r) :
    r ∉ m.used_xmms := by
  unfold Machine.pick_xmm at h
  simpa using List.find?_some h

theorem Machine.releaseOne_insert_gpr (m : Machine) {r : GPR} (hr : r ∉ m.used_gprs) :
    Machine.releaseOne { m with used_gprs := insert r m.used_gprs } (Location.GPR r) =
      some (m, 0) := by
  simp [Machine.releaseOne, Finset.erase_insert hr]

theorem Machine.releaseOne_insert_xmm (m : Machine) {r : XMM} (hr : r ∉ m.used_xmms) :
    Machine.releaseOne { m with used_xmms := insert r m.used_xmms } (Location.XMM r) =
      some (m, 0) := by
  simp [Machine.releaseOne, Finset.erase_insert hr]

theorem Machine.releaseOne_push (m : Machine) :
    Machine.releaseOne { m with stack_offset := m.stack_offset + 8 }
      (Location.Memory GPR.RBP (-((m.stack_offset + 8 : Nat) : Int))) = some (m, 8) := by
  have h1 : ¬ ((0 : Int) ≤ -((m.stack_offset + 8 : Nat) : Int)) := by omega
  have h2 : (-(-((m.stack_offset + 8 : Nat) : Int))).toNat = m.stack_offset + 8 := by omega
  simp [Machine.releaseOne, h1, h2]
  omega

theorem Machine.acquireOne_releaseOne {m m1 : Machine} {ty : WpType} {d : Nat}
    {loc : Location} (h : m.acquireOne ty = some (m1, d, loc)) :
    m1.releaseOne loc = some (m, d) := by
  cases ty <;> simp only [Machine.acquireOne] at h
  case V128 => exact absurd h (by simp)
  all_goals
    first
    | -- GPR-class kinds
      (cases hp : m.pick_gpr with
       | some r =>
           simp only [hp, Option.map_some', Option.some.injEq, Prod.mk.injEq] at h
           obtain ⟨rfl, rfl, rfl⟩ := h
           exact m.releaseOne_insert_gpr (Machine.pick_gpr_not_mem hp)
       | none =>
           simp only [hp, Option.map_none', Option.some.injEq, Prod.mk.injEq] at h
           obtain ⟨rfl, rfl, rfl⟩ := h
           exact m.releaseOne_push)
    | -- XMM-class kinds
      (cases hp : m.pick_xmm with
       | some r =>
           simp only [hp, Option.map_some', Option.some.injEq, Prod.mk.injEq] at h
           obtain ⟨rfl, rfl, rfl⟩ := h
           exact m.releaseOne_insert_xmm (Machine.pick_xmm_not_mem hp)
       | none =>
           simp only [hp, Option.map_none', Option.some.injEq, Prod.mk.injEq] at h
           obtain ⟨rfl, rfl, rfl⟩ := h
           exact m.releaseOne_push)

theorem Machine.acquireGo_releaseGo {tys : List WpType} :
    ∀ {m m' : Machine} {d : Nat} {locs : List Location},
      m.acquireGo tys = some (m', d, locs) → m'.releaseGo locs = some (m, d) := by
  induction tys with
  | nil =>
      intro m m' d locs h
      simp only [Machine.acquireGo, Option.some.injEq, Prod.mk.injEq] at h
      obtain ⟨rfl, rfl, rfl⟩ := h
      rfl
  | cons ty tys ih =>
      intro m m' d locs h
      cases h1 : m.acquireOne ty with
      | none => simp [Machine.acquireGo, h1] at h
      | some trip =>
          obtain ⟨m1, d1, loc⟩ := trip
          cases h3 : m1.acquireGo tys with
          | none => simp [Machine.acquireGo, h1, h3] at h
          | some trip2 =>
              obtain ⟨m2, d2, locs2⟩ := trip2
              simp only [Machine.acquireGo, h1, h3, Option.some.injEq,
                Prod.mk.injEq] at h
              obtain ⟨rfl, rfl, rfl⟩ := h
              simp [Machine.releaseGo, ih h3, Machine.acquireOne_releaseOne h1,
                Nat.add_comm]

theorem runTrace_eq (t : Trace) :
    ∀ m m' : Machine, runTrace m t = some m' → m' = m := by
  induction t with
  | nil => intro m m' h; simpa [runTrace] using h.symm
  | node tys zeroed inner rest ihInner ihRest =>
      intro m m' h
      cases hAcq : m.acquireGo tys with
      | none => simp [runTrace, Machine.acquire_locations, hAcq] at h
      | some trip =>
          obtain ⟨m1, dAcq, locs⟩ := trip
          cases hInner : runTrace m1 inner with
          | none => simp [runTrace, Machine.acquire_locations, hAcq, hInner] at h
          | some m2 =>
              obtain rfl : m2 = m1 := ihInner m1 m2 hInner
              have hRel := Machine.acquireGo_releaseGo hAcq
              simp only [runTrace, Machine.acquire_locations, hAcq, hInner,
                Machine.release_locations, hRel] at h
              exact ihRest m m' h

/-! ### Claim theorems -/

/-- C1: for every sequence of `acquire_locations` / `release_locations`
calls performed in strictly nested (stack-like) order (a `Trace`), after
a release whose location list matches the corresponding acquire, the
allocator's used-GPR set, used-XMM set and stack offset all equal their
values immediately before that acquire: a completed trace returns the
allocator to its starting state. -/
theorem nested_acquire_release_round_trip (t : Trace) (m m' : Machine)
    (h : runTrace m t = some m') :
    m'.used_gprs = m.used_gprs ∧ m'.used_xmms = m.used_xmms ∧
      m'.stack_offset = m.stack_offset := by
  obtain rfl := runTrace_eq t m m' h
  exact ⟨rfl, rfl, rfl⟩

/-- Witness for C1: running a concrete nested trace (seven integer
acquisitions, six registers and one stack slot, with a float
acquire/release nested inside) from a fresh allocator ends with the fresh
allocator's used sets and stack offset. -/
theorem nested_acquire_release_round_trip_witness :
    (runTrace Machine.new roundTripTrace).map Machine.stack_offset = some 0 ∧
    (runTrace Machine.new roundTripTrace).map Machine.used_gprs = some ∅ := by
  cases h : runTrace Machine.new roundTripTrace with
  | none => exact absurd h (by decide)
  | some m' =>
      obtain ⟨h1, h2, h3⟩ :=
        nested_acquire_release_round_trip roundTripTrace Machine.new m' h
      exact ⟨by simp [h, h3, Machine.new], by simp [h, h1, Machine.new]⟩

/-- C2: for every allocator state, a release list whose first-processed
location (lists are processed in reverse, so the last list element) is a
frame-relative memory location whose negated offset does not equal the
current stack-offset top makes `release_locations` take the fatal
internal-consistency path (`none`), never returning normally; and the loop
body (`releaseOne`) retires a frame-relative memory location only when its
negated offset exactly equals the current top, in which case the stack
offset decreases by 8 and the used-register sets are untouched. -/
theorem release_locations_lifo_fatal :
    (∀ (m : Machine) (x : Int), (0 ≤ x ∨ (-x).toNat ≠ m.stack_offset) →
       ∀ pre : List Location,
         m.release_locations (pre ++ [Location.Memory GPR.RBP x]) = none) ∧
    (∀ (m : Machine) (x : Int) (m' : Machine) (d : Nat),
       m.releaseOne (Location.Memory GPR.RBP x) = some (m', d) →
       x < 0 ∧ (-x).toNat = m.stack_offset ∧
       m'.used_gprs = m.used_gprs ∧ m'.used_xmms = m.used_xmms ∧
       m'.stack_offset = m.stack_offset - 8 ∧ d = 8) := by
  constructor
  · intro m x hx pre
    have hone : m.releaseOne (Location.Memory GPR.RBP x) = none := by
      by_cases h1 : (0 : Int) ≤ x
      · simp [Machine.releaseOne, h1]
      · rcases hx with hx | hx
        · exact absurd hx h1
        · simp [Machine.releaseOne, h1, hx]
    have hgo : ∀ pre : List Location,
        m.releaseGo (pre ++ [Location.Memory GPR.RBP x]) = none := by
      intro pre
      induction pre with
      | nil => simp [Machine.releaseGo, hone]
      | cons p rest ih => simp [Machine.releaseGo, ih]
    simp [Machine.release_locations, hgo pre]
  · intro m x m' d h
    simp only [Machine.releaseOne] at h
    rw [if_pos trivial] at h
    by_cases h1 : (0 : Int) ≤ x
    · rw [if_pos h1] at h; exact absurd h (by simp)
    · rw [if_neg h1] at h
      by_cases h2 : (-x).toNat = m.stack_offset
      · rw [if_pos h2] at h
        simp only [Option.some.injEq, Prod.mk.injEq] at h
        obtain ⟨rfl, rfl⟩ := h
        exact ⟨by omega, h2, rfl, rfl, rfl, rfl⟩
      · rw [if_neg h2] at h; exact absurd h (by simp)

/-- Witness for C2: on a fresh allocator (stack offset 0), releasing the
single memory location `RBP - 8` is fatal. -/
theorem release_locations_lifo_fatal_witness :
    Machine.release_locations Machine.new [Location.Memory GPR.RBP (-8)] = none :=
  release_locations_lifo_fatal.1 Machine.new (-8) (Or.inr (by decide)) []

/-- C3: on a freshly created allocator, acquiring 10 integer locations
returns, in request order, the 6 registers of the general GPR pool
followed by 4 memory locations at frame-relative offsets -8, -16, -24,
-32, and emits exactly one stack-pointer subtraction of 32 bytes. -/
theorem acquire_ten_ints_scenario :
    Machine.acquire_locations Machine.new (List.replicate 10 WpType.I32) false =
      some ({ used_gprs := {GPR.RSI, GPR.RDI, GPR.R8, GPR.R9, GPR.R10, GPR.R11},
              used_xmms := ∅, stack_offset := 32, save_area_offset := none,
              locals_offset := 0 },
            [Instr.sub Size.S64 (Location.Imm32 32) (Location.GPR GPR.RSP)],
            [Location.GPR GPR.RSI, Location.GPR GPR.RDI, Location.GPR GPR.R8,
             Location.GPR GPR.R9, Location.GPR GPR.R10, Location.GPR GPR.R11,
             Location.Memory GPR.RBP (-8), Location.Memory GPR.RBP (-16),
             Location.Memory GPR.RBP (-24), Location.Memory GPR.RBP (-32)]) := by
  have h : ({GPR.RSI, GPR.RDI, GPR.R8, GPR.R9, GPR.R10, GPR.R11} : Finset GPR) =
      {GPR.R11, GPR.R10, GPR.R9, GPR.R8, GPR.RDI, GPR.RSI} := by decide
  rw [h]
  rfl

/-- The stack-offset bookkeeping after a successful `init_locals`: it
grew by the locals-base offset (the save-area size) plus 8 bytes per
local, and the locals-base offset is at least 8. -/
theorem Machine.init_locals_stack_offset {m : Machine} {n n_params : Nat}
    {cc : CallingConvention} {m1 : Machine} {i1 : List Instr}
    (h : m.init_locals n n_params cc = some (m1, i1)) :
    m1.stack_offset = m.stack_offset + m1.locals_offset + 8 * n ∧
    8 ≤ m1.locals_offset := by
  cases cc <;>
    · simp only [Machine.init_locals] at h
      split at h
      · exact Option.noConfusion h
      · split at h
        · exact Option.noConfusion h
        · simp only [Option.some.injEq, Prod.mk.injEq] at h
          obtain ⟨rfl, rfl⟩ := h
          constructor <;> (simp; try omega)

/-- C4 (corrected, counterexample): `init_locals` on a fresh allocator
with no locals and no parameters leaves the stack-offset bookkeeping at 8
(the save-area size), and running `finalize_locals` at the epilogue keeps
it at 8 — it does not return to the prologue-entry value 0, contrary to
the claim. -/
theorem finalize_locals_stack_offset_cex :
    ((Machine.init_locals Machine.new 0 0 CallingConvention.SystemV).bind
        (fun p => p.1.finalize_locals CallingConvention.SystemV)).map
      (fun p => p.1.stack_offset) = some 8 ∧ (8 : Nat) ≠ 0 :=
  ⟨rfl, by decide⟩

/-- C4 (amended): `finalize_locals` emits the epilogue instructions that
restore the physical stack pointer to the save-area boundary, but leaves
the allocator's stack-offset bookkeeping unchanged: after `init_locals`
(with every dynamically acquired location released, so the state is the
post-`init_locals` state) the bookkeeping stays at its post-prologue value
`entry + locals_offset + 8 * total_locals`, strictly above the
prologue-entry value, and never returns to it. -/
theorem finalize_locals_keeps_stack_offset (m : Machine) (n n_params : Nat)
    (cc : CallingConvention) (m1 m2 : Machine) (i1 i2 : List Instr)
    (h1 : m.init_locals n n_params cc = some (m1, i1))
    (h2 : m1.finalize_locals cc = some (m2, i2)) :
    m2.stack_offset = m1.stack_offset ∧
    m1.stack_offset = m.stack_offset + m1.locals_offset + 8 * n ∧
    m.stack_offset < m2.stack_offset := by
  have hm : m2 = m1 := by
    simp only [Machine.finalize_locals] at h2
    split at h2
    · exact Option.noConfusion h2
    · simp only [Option.some.injEq, Prod.mk.injEq] at h2
      exact h2.1.symm
  subst hm
  obtain ⟨hso, hlo⟩ := Machine.init_locals_stack_offset h1
  exact ⟨rfl, hso, by omega⟩

/-- Witness for C4 (amended): the concrete `n = 0`, `n_params = 0`
default-convention run from a fresh allocator. -/
theorem finalize_locals_keeps_stack_offset_witness :
    (⟨∅, ∅, 8, some 8, 8⟩ : Machine).stack_offset =
      (⟨∅, ∅, 8, some 8, 8⟩ : Machine).stack_offset ∧
    (⟨∅, ∅, 8, some 8, 8⟩ : Machine).stack_offset =
      Machine.new.stack_offset + (⟨∅, ∅, 8, some 8, 8⟩ : Machine).locals_offset + 8 * 0 ∧
    Machine.new.stack_offset < (⟨∅, ∅, 8, some 8, 8⟩ : Machine).stack_offset :=
  finalize_locals_keeps_stack_offset Machine.new 0 0 CallingConvention.SystemV
    (⟨∅, ∅, 8, some 8, 8⟩ : Machine) (⟨∅, ∅, 8, some 8, 8⟩ : Machine)
    [Instr.sub Size.S64 (Location.Imm32 8) (Location.GPR GPR.RSP),
     Instr.mov Size.S64 (Location.GPR GPR.R15) (Location.Memory GPR.RBP (-8)),
     Instr.mov Size.S64 (Location.GPR GPR.RDI) (Location.GPR GPR.R15)]
    [Instr.lea Size.S64 (Location.Memory GPR.RBP (-8)) (Location.GPR GPR.RSP),
     Instr.pop Size.S64 (Location.GPR GPR.R15)]
    (by rfl) (by rfl)

/-- C5: `get_param_location` is a pure total function.  Under the default
convention, indices 0..5 map to six distinct registers and every index
at least 6 maps to caller-stack memory at offset `16 + (idx - 6) * 8`;
under the alternate (shadow-space) convention, indices 0..3 map to four
distinct registers and every index at least 4 maps to caller-stack memory
at offset `16 + 32 + (idx - 4) * 8`; in particular index 3 resolves to a
register and index 5 to a stack-memory location under the alternate
convention. -/
theorem get_param_location_tables :
    ((List.range 6).map
        (fun i => Machine.get_param_location i CallingConvention.SystemV) =
      [Location.GPR GPR.RDI, Location.GPR GPR.RSI, Location.GPR GPR.RDX,
       Location.GPR GPR.RCX, Location.GPR GPR.R8, Location.GPR GPR.R9] ∧
     [GPR.RDI, GPR.RSI, GPR.RDX, GPR.RCX, GPR.R8, GPR.R9].Pairwise (· ≠ ·)) ∧
    (∀ idx : Nat, 6 ≤ idx →
       Machine.get_param_location idx CallingConvention.SystemV =
         Location.Memory GPR.RBP ((16 + (idx - 6) * 8 : Nat) : Int)) ∧
    ((List.range 4).map
        (fun i => Machine.get_param_location i CallingConvention.WindowsFastcall) =
      [Location.GPR GPR.RCX, Location.GPR GPR.RDX, Location.GPR GPR.R8,
       Location.GPR GPR.R9] ∧
     [GPR.RCX, GPR.RDX, GPR.R8, GPR.R9].Pairwise (· ≠ ·)) ∧
    (∀ idx : Nat, 4 ≤ idx →
       Machine.get_param_location idx CallingConvention.WindowsFastcall =
         Location.Memory GPR.RBP ((16 + 32 + (idx - 4) * 8 : Nat) : Int)) ∧
    Machine.get_param_location 3 CallingConvention.WindowsFastcall =
      Location.GPR GPR.R9 ∧
    Machine.get_param_location 5 CallingConvention.WindowsFastcall =
      Location.Memory GPR.RBP 56 := by
  refine ⟨by decide, ?_, by decide, ?_, by decide, by decide⟩
  · intro idx h
    obtain ⟨k, rfl⟩ : ∃ k, idx = k + 6 := ⟨idx - 6, by omega⟩
    rfl
  · intro idx h
    obtain ⟨k, rfl⟩ : ∃ k, idx = k + 4 := ⟨idx - 4, by omega⟩
    rfl

/-- Witness for C5: index 8 under the default convention resolves to
caller-stack memory at offset 32; index 5 under the alternate convention
resolves to caller-stack memory at offset 56. -/
theorem get_param_location_tables_witness :
    Machine.get_param_location 8 CallingConvention.SystemV =
      Location.Memory GPR.RBP 32 ∧
    Machine.get_param_location 5 CallingConvention.WindowsFastcall =
      Location.Memory GPR.RBP 56 :=
  ⟨by simpa using get_param_location_tables.2.1 8 (by decide),
   by simpa using get_param_location_tables.2.2.2.1 5 (by decide)⟩

/-- One step of the keep-state loop agrees with one step of the mutating
release loop on the stack-offset component. -/
theorem Machine.keepOne_of_releaseOne {ma mb : Machine} {loc : Location} {d : Nat}
    (h : ma.releaseOne loc = some (mb, d)) :
    Machine.keepOne ma.stack_offset loc = some (mb.stack_offset, d) := by
  cases loc with
  | GPR x =>
      simp only [Machine.releaseOne] at h
      split_ifs at h
      · simp only [Option.some.injEq, Prod.mk.injEq] at h
        obtain ⟨rfl, rfl⟩ := h
        rfl
  | XMM x =>
      simp only [Machine.releaseOne] at h
      split_ifs at h
      · simp only [Option.some.injEq, Prod.mk.injEq] at h
        obtain ⟨rfl, rfl⟩ := h
        rfl
  | Memory base x =>
      simp only [Machine.releaseOne] at h
      by_cases hb : base = GPR.RBP
      · subst hb
        rw [if_pos rfl] at h
        by_cases h1 : (0 : Int) ≤ x
        · rw [if_pos h1] at h; exact Option.noConfusion h
        · rw [if_neg h1] at h
          by_cases h2 : (-x).toNat = ma.stack_offset
          · rw [if_pos h2] at h
            simp only [Option.some.injEq, Prod.mk.injEq] at h
            obtain ⟨rfl, rfl⟩ := h
            simp [Machine.keepOne, h1, h2]
          · rw [if_neg h2] at h; exact Option.noConfusion h
      · rw [if_neg hb] at h
        simp only [Option.some.injEq, Prod.mk.injEq] at h
        obtain ⟨rfl, rfl⟩ := h
        simp [Machine.keepOne, hb]
  | Imm32 v =>
      simp only [Machine.releaseOne, Option.some.injEq, Prod.mk.injEq] at h
      obtain ⟨rfl, rfl⟩ := h
      rfl
  | Imm64 v =>
      simp only [Machine.releaseOne, Option.some.injEq, Prod.mk.injEq] at h
      obtain ⟨rfl, rfl⟩ := h
      rfl

/-- A successful mutating release loop and the keep-state loop compute the
same final stack offset and the same freed-byte total. -/
theorem Machine.keepGo_of_releaseGo {locs : List Location} :
    ∀ {m m1 : Machine} {d : Nat},
      m.releaseGo locs = some (m1, d) →
      Machine.keepGo m.stack_offset locs = some (m1.stack_offset, d) := by
  induction locs with
  | nil =>
      intro m m1 d h
      simp only [Machine.releaseGo, Option.some.injEq, Prod.mk.injEq] at h
      obtain ⟨rfl, rfl⟩ := h
      rfl
  | cons loc locs ih =>
      intro m m1 d h
      cases hgo : m.releaseGo locs with
      | none => simp [Machine.releaseGo, hgo] at h
      | some p =>
          obtain ⟨ma, d1⟩ := p
          cases hone : ma.releaseOne loc with
          | none => simp [Machine.releaseGo, hgo, hone] at h
          | some q =>
              obtain ⟨mb, d2⟩ := q
              simp only [Machine.releaseGo, hgo, hone, Option.some.injEq,
                Prod.mk.injEq] at h
              obtain ⟨rfl, rfl⟩ := h
              simp [Machine.keepGo, ih hgo, Machine.keepOne_of_releaseOne hone]

/-- C6 (corrected, counterexample): for the allocator state with stack
offset 8 and no used registers, releasing `[GPR RSI, Memory RBP -8]` makes
`release_locations` take the fatal path — it aborts on the register
double-free and emits nothing — while `release_locations_keep_state`
succeeds and emits an 8-byte stack-pointer-restore instruction; so on this
input the two do not emit the same instructions, contrary to the claim's
"for every allocator state and every location list". -/
theorem keep_state_emission_differs_cex :
    Machine.release_locations (⟨∅, ∅, 8, none, 0⟩ : Machine)
        [Location.GPR GPR.RSI, Location.Memory GPR.RBP (-8)] = none ∧
    Machine.release_locations_keep_state (⟨∅, ∅, 8, none, 0⟩ : Machine)
        [Location.GPR GPR.RSI, Location.Memory GPR.RBP (-8)] =
      some [Instr.add Size.S64 (Location.Imm32 8) (Location.GPR GPR.RSP)] :=
  ⟨rfl, rfl⟩

/-- C6 (amended): `release_locations_keep_state` never mutates the
used-register sets or the stack offset (it takes the machine immutably —
`&self` in the source — so its result carries no machine state), and
whenever `release_locations` completes normally on the same list in the
same state, `release_locations_keep_state` emits exactly the same
stack-pointer-restore instructions (same total byte count). -/
theorem keep_state_matches_successful_release (m : Machine) (locs : List Location)
    (m' : Machine) (instrs : List Instr)
    (h : m.release_locations locs = some (m', instrs)) :
    m.release_locations_keep_state locs = some instrs := by
  cases hgo : m.releaseGo locs with
  | none => simp [Machine.release_locations, hgo] at h
  | some p =>
      obtain ⟨m1, delta⟩ := p
      simp only [Machine.release_locations, hgo, Option.some.injEq,
        Prod.mk.injEq] at h
      obtain ⟨rfl, rfl⟩ := h
      simp [Machine.release_locations_keep_state, Machine.keepGo_of_releaseGo hgo]

/-- Witness for C6 (amended): with RSI marked used and stack offset 8,
releasing `[GPR RSI, Memory RBP -8]` succeeds and emits an 8-byte restore;
`release_locations_keep_state` emits exactly the same instruction. -/
theorem keep_state_matches_successful_release_witness :
    Machine.release_locations_keep_state (⟨{GPR.RSI}, ∅, 8, none, 0⟩ : Machine)
        [Location.GPR GPR.RSI, Location.Memory GPR.RBP (-8)] =
      some [Instr.add Size.S64 (Location.Imm32 8) (Location.GPR GPR.RSP)] :=
  keep_state_matches_successful_release (⟨{GPR.RSI}, ∅, 8, none, 0⟩ : Machine)
    [Location.GPR GPR.RSI, Location.Memory GPR.RBP (-8)]
    (⟨∅, ∅, 0, none, 0⟩ : Machine)
    [Instr.add Size.S64 (Location.Imm32 8) (Location.GPR GPR.RSP)]
    (by rfl)

/-- C7: `init_locals` on a fresh allocator with `total_locals = 3`,
`param_count = 1` under the default convention emits one 32-byte stack
reservation (`8 + 3*8`), one store of the context-pointer register R15
into the save area, one move of parameter 1 from its entry register RSI
into local slot 0, and a bulk zero-initialization block covering exactly
local slots 1 and 2 (count 2, lowest slot offset -32). -/
theorem init_locals_scenario :
    Machine.init_locals Machine.new 3 1 CallingConvention.SystemV =
      some ({ used_gprs := ∅, used_xmms := ∅, stack_offset := 32,
              save_area_offset := some 8, locals_offset := 8 },
            [Instr.sub Size.S64 (Location.Imm32 32) (Location.GPR GPR.RSP),
             Instr.mov Size.S64 (Location.GPR GPR.R15) (Location.Memory GPR.RBP (-8)),
             Instr.mov Size.S64 (Location.GPR GPR.RSI) (Location.Memory GPR.RBP (-16)),
             Instr.mov Size.S64 (Location.GPR GPR.RDI) (Location.GPR GPR.R15),
             Instr.mov Size.S64 (Location.Imm64 2) (Location.GPR GPR.RCX),
             Instr.xor Size.S64 (Location.GPR GPR.RAX) (Location.GPR GPR.RAX),
             Instr.lea Size.S64 (Location.Memory GPR.RBP (-32)) (Location.GPR GPR.RDI),
             Instr.repStosq]) := by
  rfl

/-- Lemma: `acquireOne` aborts on `V128` (the `_ => unreachable!` arm). -/
theorem Machine.acquireOne_v128 (m : Machine) : m.acquireOne WpType.V128 = none :=
  rfl

/-- Lemma: `acquireOne` always returns a location for the six supported kinds. -/
theorem Machine.acquireOne_isSome (m : Machine) (ty : WpType)
    (h : ty ≠ WpType.V128) : (m.acquireOne ty).isSome := by
  cases ty
  case V128 => exact absurd rfl h
  all_goals simp [Machine.acquireOne]

/-- The acquisition loop aborts as soon as it reaches a `V128` request. -/
theorem Machine.acquireGo_none_of_v128 {tys : List WpType} :
    ∀ m : Machine, WpType.V128 ∈ tys → m.acquireGo tys = none := by
  induction tys with
  | nil => intro m h; exact absurd h (List.not_mem_nil _)
  | cons ty tys ih =>
      intro m h
      rcases List.mem_cons.mp h with rfl | hmem
      · simp [Machine.acquireGo, Machine.acquireOne]
      · cases h1 : m.acquireOne ty with
        | none => simp [Machine.acquireGo, h1]
        | some trip =>
            obtain ⟨m1, d1, loc⟩ := trip
            simp [Machine.acquireGo, h1, ih m1 hmem]

/-- The acquisition loop succeeds on every list of supported kinds. -/
theorem Machine.acquireGo_isSome {tys : List WpType} :
    ∀ m : Machine, (∀ ty ∈ tys, ty ≠ WpType.V128) → (m.acquireGo tys).isSome := by
  induction tys with
  | nil => intro m _; simp [Machine.acquireGo]
  | cons ty tys ih =>
      intro m h
      have h1 : (m.acquireOne ty).isSome :=
        Machine.acquireOne_isSome m ty (h ty (by simp))
      obtain ⟨⟨m1, d1, loc⟩, hEq⟩ := Option.isSome_iff_exists.mp h1
      have h2 := ih m1 (fun t ht => h t (by simp [ht]))
      obtain ⟨⟨m2, d2, locs⟩, hEq2⟩ := Option.isSome_iff_exists.mp h2
      simp [Machine.acquireGo, hEq, hEq2]

/-- C8: `acquire_locations` is total exactly over the six supported value
kinds: any request list containing the unsupported kind `V128` makes it
abort via the `unreachable!` arm (`none`), and any request list of
supported kinds always yields locations, for every allocator state. -/
theorem acquire_locations_kind_domain :
    (∀ (m : Machine) (tys : List WpType) (zeroed : Bool),
       WpType.V128 ∈ tys → m.acquire_locations tys zeroed = none) ∧
    (∀ (m : Machine) (tys : List WpType) (zeroed : Bool),
       (∀ ty ∈ tys, ty ≠ WpType.V128) → (m.acquire_locations tys zeroed).isSome) := by
  constructor
  · intro m tys zeroed h
    simp [Machine.acquire_locations, Machine.acquireGo_none_of_v128 m h]
  · intro m tys zeroed h
    obtain ⟨⟨m1, d, locs⟩, hEq⟩ :=
      Option.isSome_iff_exists.mp (Machine.acquireGo_isSome m h)
    simp [Machine.acquire_locations, hEq]

/-- Witness for C8: requesting `[V128]` on a fresh allocator aborts;
requesting `[I32]` succeeds. -/
theorem acquire_locations_kind_domain_witness :
    Machine.acquire_locations Machine.new [WpType.V128] false = none ∧
    (Machine.acquire_locations Machine.new [WpType.I32] false).isSome :=
  ⟨acquire_locations_kind_domain.1 Machine.new [WpType.V128] false (by decide),
   acquire_locations_kind_domain.2 Machine.new [WpType.I32] false (by decide)⟩

/-- A skipped location is a no-op for the release loop body. -/
theorem Machine.releaseOne_skipped {m : Machine} {loc : Location}
    (h : skippedByRelease loc = true) : m.releaseOne loc = some (m, 0) := by
  cases loc with
  | GPR x => simp [skippedByRelease] at h
  | XMM x => simp [skippedByRelease] at h
  | Memory base x =>
      simp only [skippedByRelease, decide_eq_true_eq] at h
      simp [Machine.releaseOne, h]
  | Imm32 v => rfl
  | Imm64 v => rfl

/-- A skipped location is a no-op for the only-stack release loop body. -/
theorem Machine.releaseStackOne_skipped {m : Machine} {loc : Location}
    (h : skippedByRelease loc = true) : m.releaseStackOne loc = some (m, 0) := by
  cases loc with
  | GPR x => rfl
  | XMM x => rfl
  | Memory base x =>
      simp only [skippedByRelease, decide_eq_true_eq] at h
      simp [Machine.releaseStackOne, h]
  | Imm32 v => rfl
  | Imm64 v => rfl

/-- Dropping the skipped locations from a list does not change the release
loop's result. -/
theorem Machine.releaseGo_filter {locs : List Location} :
    ∀ m : Machine,
      m.releaseGo (locs.filter (fun l => !skippedByRelease l)) = m.releaseGo locs := by
  induction locs with
  | nil => intro m; rfl
  | cons loc locs ih =>
      intro m
      cases hsk : skippedByRelease loc with
      | true =>
          have hf : (loc :: locs).filter (fun l => !skippedByRelease l) =
              locs.filter (fun l => !skippedByRelease l) := by simp [hsk]
          rw [hf, ih m]
          cases hgo : m.releaseGo locs with
          | none => simp [Machine.releaseGo, hgo]
          | some p =>
              obtain ⟨m1, d1⟩ := p
              simp [Machine.releaseGo, hgo, Machine.releaseOne_skipped hsk]
      | false =>
          have hf : (loc :: locs).filter (fun l => !skippedByRelease l) =
              loc :: locs.filter (fun l => !skippedByRelease l) := by simp [hsk]
          rw [hf]
          simp only [Machine.releaseGo]
          rw [ih m]

/-- Dropping the skipped locations does not change the only-stack release
loop's result. -/
theorem Machine.releaseStackGo_filter {locs : List Location} :
    ∀ m : Machine,
      m.releaseStackGo (locs.filter (fun l => !skippedByRelease l)) =
        m.releaseStackGo locs := by
  induction locs with
  | nil => intro m; rfl
  | cons loc locs ih =>
      intro m
      cases hsk : skippedByRelease loc with
      | true =>
          have hf : (loc :: locs).filter (fun l => !skippedByRelease l) =
              locs.filter (fun l => !skippedByRelease l) := by simp [hsk]
          rw [hf, ih m]
          cases hgo : m.releaseStackGo locs with
          | none => simp [Machine.releaseStackGo, hgo]
          | some p =>
              obtain ⟨m1, d1⟩ := p
              simp [Machine.releaseStackGo, hgo, Machine.releaseStackOne_skipped hsk]
      | false =>
          have hf : (loc :: locs).filter (fun l => !skippedByRelease l) =
              loc :: locs.filter (fun l => !skippedByRelease l) := by simp [hsk]
          rw [hf]
          simp only [Machine.releaseStackGo]
          rw [ih m]

/-- C9: for every allocator state, `release_locations` and
`release_locations_only_stack` silently skip immediate locations and
memory locations not based on the frame-base register: dropping those
entries from any list leaves the result (final state, emitted
instructions, and the fatal/normal outcome) unchanged, and a list made
only of such entries is a complete no-op — same state back, no
instructions, no abort. -/
theorem release_skips_non_stack_locations :
    (∀ (m : Machine) (locs : List Location),
       m.release_locations (locs.filter (fun l => !skippedByRelease l)) =
         m.release_locations locs ∧
       m.release_locations_only_stack (locs.filter (fun l => !skippedByRelease l)) =
         m.release_locations_only_stack locs) ∧
    (∀ (m : Machine) (locs : List Location),
       (∀ l ∈ locs, skippedByRelease l) →
       m.release_locations locs = some (m, []) ∧
       m.release_locations_only_stack locs = some (m, [])) := by
  have hrel : ∀ (m : Machine) (locs : List Location),
      m.release_locations (locs.filter (fun l => !skippedByRelease l)) =
        m.release_locations locs := by
    intro m locs
    simp only [Machine.release_locations, Machine.releaseGo_filter]
  have hstk : ∀ (m : Machine) (locs : List Location),
      m.release_locations_only_stack (locs.filter (fun l => !skippedByRelease l)) =
        m.release_locations_only_stack locs := by
    intro m locs
    simp only [Machine.release_locations_only_stack, Machine.releaseStackGo_filter]
  refine ⟨fun m locs => ⟨hrel m locs, hstk m locs⟩, ?_⟩
  intro m locs h
  have hf : locs.filter (fun l => !skippedByRelease l) = [] := by
    induction locs with
    | nil => rfl
    | cons l ls ih =>
        have h1 := h l (by simp)
        simp only [List.filter_cons, h1, Bool.not_true, Bool.false_eq_true,
          if_false]
        exact ih (fun a ha => h a (by simp [ha]))
  exact ⟨by rw [← hrel m locs, hf]; rfl, by rw [← hstk m locs, hf]; rfl⟩

/-- Witness for C9: a list of two immediates and one non-frame-base memory
location is a complete no-op for both release functions on a fresh
allocator. -/
theorem release_skips_non_stack_locations_witness :
    Machine.release_locations Machine.new
        [Location.Imm32 1, Location.Imm64 2, Location.Memory GPR.RAX (-8)] =
      some (Machine.new, []) ∧
    Machine.release_locations_only_stack Machine.new
        [Location.Imm32 1, Location.Imm64 2, Location.Memory GPR.RAX (-8)] =
      some (Machine.new, []) :=
  release_skips_non_stack_locations.2 Machine.new
    [Location.Imm32 1, Location.Imm64 2, Location.Memory GPR.RAX (-8)] (by decide)

/-- Membership in the tail of a mapped range: dropping the first element
of `map f (range s)` keeps exactly the images of `1 ≤ k < s`. -/
theorem mem_drop_one_map_range {α : Type} (f : Nat → α) (s : Nat) (a : α) :
    a ∈ ((List.range s).map f).drop 1 ↔ ∃ k, 1 ≤ k ∧ k < s ∧ a = f k := by
  cases s with
  | zero => simp
  | succ s' =>
      rw [List.range_succ_eq_map]
      simp only [List.map_cons, List.drop_succ_cons, List.drop_zero,
        List.map_map, List.mem_map, List.mem_range, Function.comp]
      constructor
      · rintro ⟨j, hj, rfl⟩
        exact ⟨j + 1, by omega, by omega, rfl⟩
      · rintro ⟨k, hk1, hk2, rfl⟩
        refine ⟨k - 1, by omega, ?_⟩
        have hk : (k - 1).succ = k := by omega
        rw [hk]

/-- C10: `init_locals` emits explicit guard-page probe stores only at
local indices `param_count + k * (NATIVE_PAGE_SIZE / 8)` for `k ≥ 1` that
are below `total_locals` (this is the index stream `probeIndices` that
`init_locals` maps probe stores over); in particular when
`total_locals - param_count ≤ NATIVE_PAGE_SIZE / 8` no probe store is
emitted at all, and the first stride element (index `param_count` itself)
is always skipped; every probe index contributes its zero store
`mov 0, local_slot(i)` to the instruction stream `init_locals` emits. -/
theorem probe_stride_boundary :
    (∀ (n_params n i : Nat),
       i ∈ probeIndices n_params n ↔
         ∃ k, 1 ≤ k ∧ i = n_params + (NATIVE_PAGE_SIZE / 8) * k ∧ i < n) ∧
    (∀ (n_params n : Nat), n - n_params ≤ NATIVE_PAGE_SIZE / 8 →
       probeIndices n_params n = []) ∧
    (∀ (n_params n : Nat), n_params ∉ probeIndices n_params n) ∧
    (∀ (m : Machine) (n n_params : Nat) (cc : CallingConvention)
       (m1 : Machine) (i1 : List Instr),
       m.init_locals n n_params cc = some (m1, i1) →
       ∀ i ∈ probeIndices n_params n,
         Instr.mov Size.S64 (Location.Imm32 0) (m1.get_local_location i) ∈ i1) := by
  have hdiv : NATIVE_PAGE_SIZE / 8 = 512 := rfl
  have hmem : ∀ (n_params n i : Nat),
      i ∈ probeIndices n_params n ↔
        ∃ k, 1 ≤ k ∧ i = n_params + (NATIVE_PAGE_SIZE / 8) * k ∧ i < n := by
    intro p n i
    rw [probeIndices, mem_drop_one_map_range]
    constructor
    · rintro ⟨k, hk1, hk2, rfl⟩
      refine ⟨k, hk1, rfl, ?_⟩
      have hs : k + 1 ≤ (n - p + NATIVE_PAGE_SIZE / 8 - 1) / (NATIVE_PAGE_SIZE / 8) :=
        hk2
      have h512 := (Nat.le_div_iff_mul_le (by decide : 0 < NATIVE_PAGE_SIZE / 8)).mp hs
      rw [hdiv] at h512 ⊢
      omega
    · rintro ⟨k, hk1, hki, hlt⟩
      refine ⟨k, hk1, ?_, hki⟩
      show k + 1 ≤ (n - p + NATIVE_PAGE_SIZE / 8 - 1) / (NATIVE_PAGE_SIZE / 8)
      refine (Nat.le_div_iff_mul_le (by decide : 0 < NATIVE_PAGE_SIZE / 8)).mpr ?_
      rw [hdiv] at hki ⊢
      omega
  refine ⟨hmem, ?_, ?_, ?_⟩
  · intro p n h
    rw [List.eq_nil_iff_forall_not_mem]
    intro i hi
    obtain ⟨k, hk1, hki, hlt⟩ := (hmem p n i).mp hi
    rw [hdiv] at hki
    rw [hdiv] at h
    omega
  · intro p n hp
    obtain ⟨k, hk1, hki, hlt⟩ := (hmem p n p).mp hp
    rw [hdiv] at hki
    omega
  · intro m n n_params cc m1 i1 h
    cases cc <;>
      · simp only [Machine.init_locals] at h
        split at h
        · exact Option.noConfusion h
        · split at h
          · exact Option.noConfusion h
          · simp only [Option.some.injEq, Prod.mk.injEq] at h
            obtain ⟨rfl, rfl⟩ := h
            intro i hi
            simp only [List.mem_append]
            exact Or.inl (Or.inr (List.mem_map_of_mem _ hi))

/-- Witness for C10: with one parameter and 600 locals the only probe
index is `1 + 512 = 513`; with no parameters and 512 locals no probe store
is emitted. -/
theorem probe_stride_boundary_witness :
    (513 ∈ probeIndices 1 600) ∧ probeIndices 0 512 = [] :=
  ⟨(probe_stride_boundary.1 1 600 513).mpr ⟨1, by decide, by decide, by decide⟩,
   probe_stride_boundary.2.1 0 512 (by decide)⟩

end Wasmer
